import Mathlib

/-!
# Verification of the i18next-toolkit extraction and key-generation engine

This file gives a shallow embedding of the extraction core of the
i18next-toolkit repository and proves the specified properties about it.

Embedded source files:
* `src/core/transliterate.ts` — `TRANSLIT_MAP`, `transliterate`, `generateKey`,
  `hasRussian`, and (from the documented variant of the same module)
  `matchesSourcePattern`.
* `src/core/parser.ts` — the `SKIP_CALLEE_NAMES` / `SKIP_JSX_ATTRIBUTES`
  constant tables.
* `src/commands/extract.ts` — the exclusion helpers (`isInsideTCall`,
  `getCalleeName`, `isInsideSkippedCall`, `isSkippedJSXAttribute`,
  `isInsideFunctionScope`, `getParentObjectProperty`, `tryReplaceWithGetter`),
  the `processFile` visitor over a Babel-style syntax tree, and the `extract`
  run pipeline (registry seeding, per-file processing, write guards, and the
  merge of the translation draft into the locale file).

Modelling conventions:
* JS strings are `String` (lists of code points); all texts in scope are in
  the Basic Multilingual Plane, so code points and UTF-16 units agree.
* JS objects used as string maps (`translations`, the interpolation record,
  translation JSON category objects) are association lists in insertion
  order; assignment updates in place or appends (`setAssoc`).
* The JS `Set` of used keys is a list in insertion order; only membership and
  insertion are used.
* `String.prototype.toLowerCase` is modelled on the ASCII and Cyrillic ranges
  (the only ranges the cleaning step can keep); other characters are left
  unchanged.
* The Babel parser itself is an external collaborator; files enter the model
  as already-parsed syntax trees.  Node positions are modelled by a line
  number carried on literal nodes.
* Babel's `path.replaceWith` requeues the replacement for traversal.  Every
  replacement this command produces is a `t(key)` lookup call whose key is
  pure ASCII (proved below as the key-shape invariant), so revisiting it
  never fires a visitor; the model therefore does not re-descend into
  replacements.
* The `RegExp` engine is an external collaborator and is abstracted as a
  compile function that may fail (`Option`) plus a test function; an invalid
  pattern is a pattern on which `compile` fails.
-/

namespace I18n

/-! ## Character-level embedding -/

/-- The JS whitespace class: the character set matched by `\s` in a JS regular
expression, which is also the set removed by `String.prototype.trim`. -/
def jsWs (c : Char) : Bool :=
  let n := c.toNat
  (9 ≤ n && n ≤ 13) || n == 32 || n == 0xa0 || n == 0x1680 ||
  (0x2000 ≤ n && n ≤ 0x200a) || n == 0x2028 || n == 0x2029 ||
  n == 0x202f || n == 0x205f || n == 0x3000 || n == 0xfeff

/-- The character set kept by the cleaning step
`text.replace(/[^а-яёА-ЯЁa-zA-Z0-9\s]/g, '')` of `generateKey`:
Cyrillic а-я/ё (lower and upper case), ASCII letters, digits and whitespace. -/
def isCleanChar (c : Char) : Bool :=
  let n := c.toNat
  (0x430 ≤ n && n ≤ 0x44f) || n == 0x451 || (0x410 ≤ n && n ≤ 0x42f) || n == 0x401 ||
  (97 ≤ n && n ≤ 122) || (65 ≤ n && n ≤ 90) || (48 ≤ n && n ≤ 57) || jsWs c

/-- The Russian-character class `[а-яёА-ЯЁ]` (the default source pattern). -/
def isRussianChar (c : Char) : Bool :=
  let n := c.toNat
  (0x430 ≤ n && n ≤ 0x44f) || n == 0x451 || (0x410 ≤ n && n ≤ 0x42f) || n == 0x401

/-- `String.prototype.toLowerCase`, restricted to the ASCII and Cyrillic
ranges (identity on every other character). -/
def jsLower (c : Char) : Char :=
  let n := c.toNat
  if 65 ≤ n && n ≤ 90 then Char.ofNat (n + 32)
  else if 0x410 ≤ n && n ≤ 0x42f then Char.ofNat (n + 32)
  else if n == 0x401 then Char.ofNat 0x451
  else c

/-- One step of `transliterate`: `char in TRANSLIT_MAP ? TRANSLIT_MAP[char] : char`.
The cases are exactly the entries of `TRANSLIT_MAP` (keyed by code point);
`ъ` (0x44a) and `ь` (0x44c) map to the empty expansion. -/
def translitChar (c : Char) : List Char :=
  match c.toNat with
  | 0x430 => ['a']
  | 0x431 => ['b']
  | 0x432 => ['v']
  | 0x433 => ['g']
  | 0x434 => ['d']
  | 0x435 => ['e']
  | 0x451 => ['y', 'o']
  | 0x436 => ['z', 'h']
  | 0x437 => ['z']
  | 0x438 => ['i']
  | 0x439 => ['y']
  | 0x43a => ['k']
  | 0x43b => ['l']
  | 0x43c => ['m']
  | 0x43d => ['n']
  | 0x43e => ['o']
  | 0x43f => ['p']
  | 0x440 => ['r']
  | 0x441 => ['s']
  | 0x442 => ['t']
  | 0x443 => ['u']
  | 0x444 => ['f']
  | 0x445 => ['h']
  | 0x446 => ['t', 's']
  | 0x447 => ['c', 'h']
  | 0x448 => ['s', 'h']
  | 0x449 => ['s', 'c', 'h']
  | 0x44a => []
  | 0x44b => ['y']
  | 0x44c => []
  | 0x44d => ['e']
  | 0x44e => ['y', 'u']
  | 0x44f => ['y', 'a']
  | _ => [c]

/-- Embeds `transliterate(str)`: lowercase, split into characters, map each through
`TRANSLIT_MAP`, join. -/
def transliterateL (l : List Char) : List Char :=
  ((l.map jsLower).map translitChar).flatten

/-- The `String` wrapper for `transliterate`. -/
def transliterate (s : String) : String :=
  String.mk (transliterateL s.data)

/-- JS `String.prototype.trim` on a character list. -/
def jsTrim (l : List Char) : List Char :=
  ((l.dropWhile jsWs).reverse.dropWhile jsWs).reverse

/-- The cleaning step of `generateKey`:
`text.replace(/[^а-яёА-ЯЁa-zA-Z0-9\s]/g, '').trim().toLowerCase()`. -/
def cleanText (text : String) : List Char :=
  (jsTrim (text.data.filter isCleanChar)).map jsLower

/-- Splitting on single whitespace characters, accumulator style: the pieces
between separator characters in order, empty pieces included (as JS `split`
before `filter(Boolean)`). -/
def splitWsAux : List Char → List Char → List (List Char)
  | [], acc => [acc.reverse]
  | c :: rest, acc =>
    if jsWs c then acc.reverse :: splitWsAux rest [] else splitWsAux rest (c :: acc)

/-- Embeds `translit.split(/\s+/).filter(Boolean)`: splitting on a maximal run of
whitespace equals splitting on each whitespace character and discarding the
empty pieces. -/
def splitWs (l : List Char) : List (List Char) :=
  (splitWsAux l []).filter (· ≠ [])

/-- Embeds `words.join(sep)`. -/
def joinWith (sep : Char) : List (List Char) → List Char
  | [] => []
  | [w] => w
  | w :: rest => w ++ sep :: joinWith sep rest

/-- The base-key computation of `generateKey`: first four words of the
transliterated cleaned text, joined with underscores, truncated to 50
characters, with the fallback `'text'` for an empty result
(`words.join('_').substring(0, 50) || 'text'`). -/
def mkBaseKey (text : String) : String :=
  let words := (splitWs (transliterateL (cleanText text))).take 4
  let joined := (joinWith '_' words).take 50
  if joined.isEmpty then "text" else String.mk joined

/-! ## Decimal rendering of the collision counter -/

/-- Decimal digit character. -/
def digitChar (n : Nat) : Char := Char.ofNat (48 + n)

/-- Big-endian decimal digits of `n` (empty for 0), step-indexed for
structural recursion; any fuel ≥ n computes the digits. -/
def natDigitsAux : Nat → Nat → List Char
  | _, 0 => []
  | 0, _ + 1 => []
  | fuel + 1, n + 1 => natDigitsAux fuel ((n + 1) / 10) ++ [digitChar ((n + 1) % 10)]

/-- Decimal rendering of the counter, as the JS template `${counter}`. -/
def decimalStr (n : Nat) : String :=
  if n = 0 then "0" else String.mk (natDigitsAux n n)

/-! ## The suffixing loop of `generateKey` -/

/-- The n-th candidate key of the suffixing loop: `category.baseKey` for
n = 0, then `` `${category}.${baseKey}_${n}` `` for the n-th loop iteration. -/
def candKey (category base : String) : Nat → String
  | 0 => category ++ "." ++ base
  | n + 1 => category ++ "." ++ base ++ "_" ++ decimalStr (n + 1)

/-- JS object read on a string-keyed map: `translations[fullKey]`
(`none` plays the role of `undefined`). -/
def lookupTr : List (String × String) → String → Option String
  | [], _ => none
  | (k₁, v) :: rest, k => if k₁ = k then some v else lookupTr rest k

/-- JS object write `map[key] = value`: an existing key keeps its position and
gets the new value, a new key is appended. -/
def setAssoc {α : Type} : List (String × α) → String → α → List (String × α)
  | [], k, v => [(k, v)]
  | (k₁, v₁) :: rest, k, v =>
    if k₁ = k then (k₁, v) :: rest else (k₁, v₁) :: setAssoc rest k v

/-- Embeds `translations[key] = value`. -/
def setTr (tr : List (String × String)) (k v : String) : List (String × String) :=
  setAssoc tr k v

/-- Embeds `usedKeys.has(fullKey)`. -/
def memKey (used : List String) (k : String) : Bool := used.contains k

/-- Embeds `usedKeys.add(fullKey)` (a JS `Set` ignores duplicates). -/
def addKey (used : List String) (k : String) : List String :=
  if memKey used k then used else used ++ [k]

/-- The guard of the suffixing loop:
`usedKeys.has(fullKey) && translations[fullKey] !== text`. -/
def loopCond (used : List String) (tr : List (String × String)) (text k : String) : Bool :=
  memKey used k && !(lookupTr tr k == some text)

/-- The suffixing `while` loop, step-indexed: `n` is the index of the
candidate under test and the fuel bounds the number of guard evaluations.
The registry is finite, so fuel `used.length + 1` always reaches the exit of
the loop (proved below: `generateKey_loop_terminates`). -/
def resolveLoop (used : List String) (tr : List (String × String))
    (text category base : String) : Nat → Nat → String
  | 0, n => candKey category base n
  | fuel + 1, n =>
    if loopCond used tr text (candKey category base n) then
      resolveLoop used tr text category base fuel (n + 1)
    else candKey category base n

/-- Embeds `generateKey(text, category, usedKeys, translations)`: the returned key. -/
def generateKey (text category : String) (used : List String)
    (tr : List (String × String)) : String :=
  resolveLoop used tr text category (mkBaseKey text) (used.length + 1) 0

/-- The function `generateKey` together with its registry side effect
(`usedKeys.add(fullKey)` just before the return). -/
def generateKeyS (text category : String) (used : List String)
    (tr : List (String × String)) : String × List String :=
  let k := generateKey text category used tr
  (k, addKey used k)

/-! ## Source-pattern matching (`hasRussian`, `matchesSourcePattern`) -/

/-- Embeds `hasRussian(str)`: the test `/[а-яёА-ЯЁ]/.test(str)` — the default source
pattern matches somewhere in the string. -/
def hasRussian (s : String) : Bool := s.data.any isRussianChar

/-- The external `RegExp` facility, abstracted: `compile` models
`new RegExp(pattern)` (`none` when the constructor throws on an invalid
pattern) and `test` models `regex.test(str)`. -/
structure RegexEngine where
  Compiled : Type
  compile : String → Option Compiled
  test : Compiled → String → Bool

/-- Embeds `matchesSourcePattern(str, pattern)`: try to compile the user pattern and
test with it; on a compile failure fall back to the default Russian pattern
(`hasRussian`) instead of throwing. -/
def matchesSourcePattern (E : RegexEngine) (s pattern : String) : Bool :=
  match E.compile pattern with
  | some r => E.test r s
  | none => hasRussian s


/-! ## The syntax-tree model

A Babel AST subset covering every node kind the extract command's visitors
and exclusion helpers inspect.  List-valued children follow Babel's visitor
key order.  `objMethodGet` is an `ObjectMethod` of kind `get` with no
parameters — both the shape produced by `tryReplaceWithGetter` and a
function-like scope for `isInsideFunctionScope`. -/
inductive Ast where
  | strLit (value : String) (line : Nat)
  | tmplLit (quasis : List String) (exprs : List Ast) (line : Nat)
  | ident (name : String)
  | call (callee : Ast) (args : List Ast)
  | newE (callee : Ast) (args : List Ast)
  | member (obj : Ast) (prop : Ast)
  | objProp (key : Ast) (value : Ast) (computed : Bool) (shorthand : Bool)
  | objMethodGet (key : Ast) (body : List Ast)
  | objExpr (props : List Ast)
  | arrayExpr (elems : List Ast)
  | funcDecl (name : String) (body : List Ast)
  | funcExpr (body : List Ast)
  | arrowFun (body : List Ast)
  | classMethod (key : Ast) (body : List Ast)
  | jsxText (value : String) (line : Nat)
  | jsxAttr (name : String) (value : Ast)
  | jsxExprContainer (e : Ast)
  | jsxElement (attrs : List Ast) (children : List Ast)
  | importDecl (source : Ast)
  | exportNamed (decl : Ast)
  | switchCase (test : Ast) (body : List Ast)
  | throwStmt (arg : Ast)
  | returnStmt (arg : Ast)
  | varDeclarator (id : Ast) (init : Ast)
  | varDecl (decls : List Ast)
  | exprStmt (e : Ast)
  | program (body : List Ast)
  | tsLiteralType (lit : Ast)
  | tsEnumMember (init : Ast)

/-! ## Constant tables from `src/core/parser.ts` -/

/-- Function/method calls to skip (debug, errors): `SKIP_CALLEE_NAMES`. -/
def SKIP_CALLEE_NAMES : List String :=
  ["console.log", "console.warn", "console.error", "console.info",
   "console.debug", "console.trace", "Error", "TypeError", "RangeError",
   "SyntaxError", "ReferenceError"]

/-- JSX attributes to skip (technical): `SKIP_JSX_ATTRIBUTES`. -/
def SKIP_JSX_ATTRIBUTES : List String :=
  ["className", "class", "id", "name", "type", "href", "src", "alt",
   "data-testid", "data-cy", "data-test", "htmlFor", "key", "ref", "style",
   "target", "rel", "role", "tabIndex", "autoComplete", "inputMode", "pattern"]

/-! ## Exclusion helpers from `src/commands/extract.ts`

Each helper walks the chain of ancestors of the current node; the model
passes that chain explicitly (nearest ancestor first), which is exactly the
`parentPath` chain of Babel. -/

/-- Does this node satisfy
`isCallExpression() && 'name' in callee && callee.name === 't'`?
Only an `Identifier` callee carries a `name` field. -/
def isTCallNode : Ast → Bool
  | .call (.ident n) _ => n == "t"
  | _ => false

/-- Embeds `isInsideTCall(nodePath)`: some ancestor is a call to `t`. -/
def isInsideTCall (anc : List Ast) : Bool := anc.any isTCallNode

/-- Embeds `getCalleeName(callExpr)` applied to the callee node: the plain
identifier name, or `obj.prop` for a simple member callee, else nothing. -/
def calleeName : Ast → Option String
  | .ident n => some n
  | .member (.ident o) (.ident p) => some (o ++ "." ++ p)
  | _ => none

/-- Embeds `isInsideSkippedCall(nodePath)`: some ancestor is a call or `new`
whose callee name is denylisted, or a `throw` statement. -/
def isInsideSkippedCall (anc : List Ast) : Bool :=
  anc.any fun a =>
    match a with
    | .call c _ =>
      match calleeName c with
      | some n => SKIP_CALLEE_NAMES.contains n
      | none => false
    | .newE c _ =>
      match calleeName c with
      | some n => SKIP_CALLEE_NAMES.contains n
      | none => false
    | .throwStmt _ => true
    | _ => false

/-- Embeds `isSkippedJSXAttribute(nodePath)`: the parent is a JSX attribute
whose name is denylisted. -/
def isSkippedJSXAttr (anc : List Ast) : Bool :=
  match anc.head? with
  | some (.jsxAttr n _) => SKIP_JSX_ATTRIBUTES.contains n
  | _ => false

/-- The parent is a JSX attribute (replacement there wraps the lookup call in
a JSX expression container). -/
def parentIsJsxAttr (anc : List Ast) : Bool :=
  match anc.head? with
  | some (.jsxAttr _ _) => true
  | _ => false

/-- The remaining parent-kind skips of the `StringLiteral` visitor: import
declarations, TS literal types, TS enum members, named exports, switch
cases. -/
def parentSkip (anc : List Ast) : Bool :=
  match anc.head? with
  | some (.importDecl _) => true
  | some (.tsLiteralType _) => true
  | some (.tsEnumMember _) => true
  | some (.exportNamed _) => true
  | some (.switchCase _ _) => true
  | _ => false

/-- Embeds `isInsideFunctionScope(nodePath)`: some ancestor is a function
declaration/expression, arrow function, object method or class method. -/
def isFnScope (anc : List Ast) : Bool :=
  anc.any fun a =>
    match a with
    | .funcDecl _ _ => true
    | .funcExpr _ => true
    | .arrowFun _ => true
    | .objMethodGet _ _ => true
    | .classMethod _ _ => true
    | _ => false

/-- Babel's `Statement` alias, restricted to the node kinds of this model. -/
def isStatementNode : Ast → Bool
  | .varDecl _ => true
  | .exprStmt _ => true
  | .returnStmt _ => true
  | .throwStmt _ => true
  | .funcDecl _ _ => true
  | .importDecl _ => true
  | .exportNamed _ => true
  | _ => false

/-- Embeds `getParentObjectProperty(nodePath)`: walk up to the first
`ObjectProperty`, giving up at a call, JSX element, statement or array
boundary.  Returns the property's key, its `computed` flag, and the
ancestors above the property. -/
def findObjProp : List Ast → Option (Ast × Bool × List Ast)
  | [] => none
  | .objProp k _ computed _ :: rest => some (k, computed, rest)
  | .call _ _ :: _ => none
  | .jsxElement _ _ :: _ => none
  | .arrayExpr _ :: _ => none
  | a :: rest => if isStatementNode a then none else findObjProp rest

/-- Embeds `tryReplaceWithGetter(nodePath, tCall, autoGetters)`: when
auto-getters are on and the nearest qualifying object property is not inside
a function scope, not computed, and has an identifier or string-literal key,
build the replacement getter `get key() { return tCall; }`. -/
def tryGetter (anc : List Ast) (tCall : Ast) (autoGetters : Bool) : Option Ast :=
  if !autoGetters then none
  else
    match findObjProp anc with
    | none => none
    | some (k, computed, above) =>
      if isFnScope above then none
      else if computed then none
      else
        match k with
        | .ident n => some (.objMethodGet (.ident n) [.returnStmt tCall])
        | .strLit v _ => some (.objMethodGet (.ident v) [.returnStmt tCall])
        | _ => none

/-! ## Run-scoped data of one extraction invocation -/

/-- The `type` tag of a report record. -/
inductive FType where
  | stringLiteral
  | templateLiteral
  | templateLiteralWithExpressions
  | jsxText
deriving DecidableEq

/-- A report record (`FoundString` of `src/types/index.ts`). -/
structure FoundString where
  file : String
  line : Nat
  text : String
  key : String
  ftype : FType
  interpolations : Option (List String)
deriving DecidableEq

/-- The extraction mode (`'report' | 'extract' | 'validate'`). -/
inductive Mode where
  | report
  | extract
  | validate
deriving DecidableEq

/-- The per-file context the visitors read: the file's path for report
records, and the `mode`/`autoGetters`/`category` options. -/
structure Ctx where
  file : String
  mode : Mode
  autoGetters : Bool
  category : String

/-- The run-scoped shared mutable state: the used-key registry and the
translation draft (`usedKeys`, `translations`). -/
structure St where
  used : List String
  tr : List (String × String)
deriving DecidableEq

/-- The result of visiting one node: the node after rewriting, the report
records in traversal order, the updated shared state, the modified flag, and
a pending getter replacement travelling up to the nearest object property
(modelling `objectPropertyPath.replaceWith(getter)` fired from a descendant
of that property). -/
structure TOut where
  node : Ast
  found : List FoundString
  st : St
  modified : Bool
  sig : Option Ast

/-- The result of visiting a list of sibling nodes. -/
structure TOutL where
  nodes : List Ast
  found : List FoundString
  st : St
  modified : Bool
  sig : Option Ast

/-- First pending getter replacement wins (a second one can only arise in
trees no Babel grammar produces). -/
def sigOr : Option Ast → Option Ast → Option Ast
  | some g, _ => some g
  | none, s => s

/-! ## The visitors of `processFile` -/

/-- The `StringLiteral` visitor.  The object-key guard
(`parentPath.isObjectProperty() && parentPath.node.key === node`) is applied
at the `objProp` case of the traversal, where the key position is known; the
other guards are checked here.  In extract mode the literal is replaced with
`t(key)` (wrapped in a JSX expression container under a JSX attribute), or the
enclosing object property is turned into a getter. -/
def visitStrLit (ctx : Ctx) (anc : List Ast) (st : St) (v : String) (ln : Nat) : TOut :=
  let node := Ast.strLit v ln
  if !hasRussian v || isInsideTCall anc || isInsideSkippedCall anc ||
      isSkippedJSXAttr anc || parentSkip anc then
    ⟨node, [], st, false, none⟩
  else
    let key := generateKey v ctx.category st.used st.tr
    let used' := addKey st.used key
    let fs : FoundString := ⟨ctx.file, ln, v, key, .stringLiteral, none⟩
    if ctx.mode = .extract then
      let tr' := setTr st.tr key v
      let tCall := Ast.call (.ident "t") [.strLit key 0]
      match tryGetter anc tCall ctx.autoGetters with
      | some g => ⟨node, [fs], ⟨used', tr'⟩, true, some g⟩
      | none =>
        if parentIsJsxAttr anc then
          ⟨.jsxExprContainer tCall, [fs], ⟨used', tr'⟩, true, none⟩
        else
          ⟨tCall, [fs], ⟨used', tr'⟩, true, none⟩
    else
      ⟨node, [fs], ⟨used', st.tr⟩, false, none⟩

/-- The `JSXText` visitor: trim, require source-language text, extract, and
in extract mode replace with `{t(key)}`. -/
def visitJsxText (ctx : Ctx) (st : St) (v : String) (ln : Nat) : TOut :=
  let node := Ast.jsxText v ln
  let value := String.mk (jsTrim v.data)
  if !hasRussian value then ⟨node, [], st, false, none⟩
  else
    let key := generateKey value ctx.category st.used st.tr
    let used' := addKey st.used key
    let fs : FoundString := ⟨ctx.file, ln, value, key, .jsxText, none⟩
    if ctx.mode = .extract then
      ⟨.jsxExprContainer (.call (.ident "t") [.strLit key 0]), [fs],
        ⟨used', setTr st.tr key value⟩, true, none⟩
    else
      ⟨node, [fs], ⟨used', st.tr⟩, false, none⟩

/-- Embeds `parts.join(sep)` on strings. -/
def joinStrs (sep : String) : List String → String
  | [] => ""
  | [s] => s
  | s :: rest => s ++ sep ++ joinStrs sep rest

/-- The interpolation loop of the `TemplateLiteral` visitor: walk the quasis
with the current index, append each literal chunk, and at each expression
boundary append a `\x7b\x7bname\x7d\x7d` marker and record the binding
(`interpolations[paramName] = expr`, overwrite-in-place object semantics).
The parameter name is the expression's identifier name for a bare
identifier, else the positional `arg` name. -/
def buildTmplAux : List String → List Ast → Nat → String → List (String × Ast) →
    String × List (String × Ast)
  | [], _, _, text, acc => (text, acc)
  | q :: qrest, [], i, text, acc => buildTmplAux qrest [] (i + 1) (text ++ q) acc
  | q :: qrest, e :: erest, i, text, acc =>
    let pname :=
      match e with
      | .ident n => n
      | _ => "arg" ++ decimalStr i
    buildTmplAux qrest erest (i + 1)
      (text ++ q ++ "\x7b\x7b" ++ pname ++ "\x7d\x7d") (setAssoc acc pname e)

/-- The normalized text and ordered bindings of a template literal. -/
def buildTmpl (qs : List String) (es : List Ast) : String × List (String × Ast) :=
  buildTmplAux qs es 0 "" []

/-- Does the rewritten property use shorthand syntax
(`expr.type === 'Identifier' && expr.name === name`)? -/
def isShorthand (n : String) : Ast → Bool
  | .ident m => m == n
  | _ => false

/-- The second argument of the rewritten lookup call: one object property per
recorded binding, in insertion order. -/
def tmplProps (binds : List (String × Ast)) : List Ast :=
  binds.map fun p => Ast.objProp (.ident p.1) p.2 false (isShorthand p.1 p.2)

/-! ## The traversal

Depth-first in Babel's visitor-key order, carrying the ancestor chain
(nearest first), threading the shared state left to right.  A visitor that
replaces a node ends the walk of that subtree (see the module comment on
requeued replacements); a skipped visitor descends. -/

mutual

/-- Visit one node: run its visitor if one is registered, then descend. -/
def transformNode (ctx : Ctx) (anc : List Ast) (st : St) : Ast → TOut
  | .strLit v ln => visitStrLit ctx anc st v ln
  | .jsxText v ln => visitJsxText ctx st v ln
  | .tmplLit qs es ln =>
    let node := Ast.tmplLit qs es ln
    if isInsideTCall anc || isInsideSkippedCall anc ||
        !hasRussian (joinStrs "\x7b\x7b\x7d\x7d" qs) then
      -- visitor returned early: the traversal still descends into the
      -- template's expressions
      let r := transformList ctx (node :: anc) st es
      ⟨.tmplLit qs r.nodes ln, r.found, r.st, r.modified, r.sig⟩
    else if es.isEmpty then
      -- simple template without expressions
      let value := (match qs with | [] => "" | q :: _ => q)
      let key := generateKey value ctx.category st.used st.tr
      let used' := addKey st.used key
      let fs : FoundString := ⟨ctx.file, ln, value, key, .templateLiteral, none⟩
      if ctx.mode = .extract then
        let tr' := setTr st.tr key value
        let tCall := Ast.call (.ident "t") [.strLit key 0]
        match tryGetter anc tCall ctx.autoGetters with
        | some g => ⟨node, [fs], ⟨used', tr'⟩, true, some g⟩
        | none => ⟨tCall, [fs], ⟨used', tr'⟩, true, none⟩
      else
        ⟨node, [fs], ⟨used', st.tr⟩, false, none⟩
    else
      -- template with interpolations
      let built := buildTmpl qs es
      let key := generateKey built.1 ctx.category st.used st.tr
      let used' := addKey st.used key
      let fs : FoundString :=
        ⟨ctx.file, ln, built.1, key, .templateLiteralWithExpressions,
          some (built.2.map (·.1))⟩
      if ctx.mode = .extract then
        let tr' := setTr st.tr key built.1
        let tCall := Ast.call (.ident "t")
          [.strLit key 0, .objExpr (tmplProps built.2)]
        match tryGetter anc tCall ctx.autoGetters with
        | some g => ⟨node, [fs], ⟨used', tr'⟩, true, some g⟩
        | none => ⟨tCall, [fs], ⟨used', tr'⟩, true, none⟩
      else
        -- report mode: no replacement, so the traversal descends into the
        -- expressions after the visitor ran
        let r := transformList ctx (node :: anc) ⟨used', st.tr⟩ es
        ⟨.tmplLit qs r.nodes ln, fs :: r.found, r.st, r.modified, r.sig⟩
  | .ident n => ⟨.ident n, [], st, false, none⟩
  | .call c as =>
    let self := Ast.call c as
    let rc := transformNode ctx (self :: anc) st c
    let ra := transformList ctx (self :: anc) rc.st as
    ⟨.call rc.node ra.nodes, rc.found ++ ra.found, ra.st,
      rc.modified || ra.modified, sigOr rc.sig ra.sig⟩
  | .newE c as =>
    let self := Ast.newE c as
    let rc := transformNode ctx (self :: anc) st c
    let ra := transformList ctx (self :: anc) rc.st as
    ⟨.newE rc.node ra.nodes, rc.found ++ ra.found, ra.st,
      rc.modified || ra.modified, sigOr rc.sig ra.sig⟩
  | .member o p =>
    let self := Ast.member o p
    let ro := transformNode ctx (self :: anc) st o
    let rp := transformNode ctx (self :: anc) ro.st p
    ⟨.member ro.node rp.node, ro.found ++ rp.found, rp.st,
      ro.modified || rp.modified, sigOr ro.sig rp.sig⟩
  | .objProp k v computed shorthand =>
    let self := Ast.objProp k v computed shorthand
    let anc' := self :: anc
    -- the object-key guard: a string literal in the key position is the
    -- node compared by `parentPath.node.key === node`, so its visitor skips
    let rk :=
      match k with
      | .strLit v₁ ln₁ => (⟨Ast.strLit v₁ ln₁, [], st, false, none⟩ : TOut)
      | k => transformNode ctx anc' st k
    let rv := transformNode ctx anc' rk.st v
    match sigOr rk.sig rv.sig with
    | some g =>
      -- a descendant replaced this property with a getter
      ⟨g, rk.found ++ rv.found, rv.st, rk.modified || rv.modified, none⟩
    | none =>
      ⟨.objProp rk.node rv.node computed shorthand, rk.found ++ rv.found,
        rv.st, rk.modified || rv.modified, none⟩
  | .objMethodGet k b =>
    let self := Ast.objMethodGet k b
    let rk := transformNode ctx (self :: anc) st k
    let rb := transformList ctx (self :: anc) rk.st b
    ⟨.objMethodGet rk.node rb.nodes, rk.found ++ rb.found, rb.st,
      rk.modified || rb.modified, sigOr rk.sig rb.sig⟩
  | .objExpr ps =>
    let self := Ast.objExpr ps
    let r := transformList ctx (self :: anc) st ps
    ⟨.objExpr r.nodes, r.found, r.st, r.modified, r.sig⟩
  | .arrayExpr es =>
    let self := Ast.arrayExpr es
    let r := transformList ctx (self :: anc) st es
    ⟨.arrayExpr r.nodes, r.found, r.st, r.modified, r.sig⟩
  | .funcDecl n b =>
    let self := Ast.funcDecl n b
    let r := transformList ctx (self :: anc) st b
    ⟨.funcDecl n r.nodes, r.found, r.st, r.modified, r.sig⟩
  | .funcExpr b =>
    let self := Ast.funcExpr b
    let r := transformList ctx (self :: anc) st b
    ⟨.funcExpr r.nodes, r.found, r.st, r.modified, r.sig⟩
  | .arrowFun b =>
    let self := Ast.arrowFun b
    let r := transformList ctx (self :: anc) st b
    ⟨.arrowFun r.nodes, r.found, r.st, r.modified, r.sig⟩
  | .classMethod k b =>
    let self := Ast.classMethod k b
    let rk := transformNode ctx (self :: anc) st k
    let rb := transformList ctx (self :: anc) rk.st b
    ⟨.classMethod rk.node rb.nodes, rk.found ++ rb.found, rb.st,
      rk.modified || rb.modified, sigOr rk.sig rb.sig⟩
  | .jsxAttr n v =>
    let self := Ast.jsxAttr n v
    let r := transformNode ctx (self :: anc) st v
    ⟨.jsxAttr n r.node, r.found, r.st, r.modified, r.sig⟩
  | .jsxExprContainer e =>
    let self := Ast.jsxExprContainer e
    let r := transformNode ctx (self :: anc) st e
    ⟨.jsxExprContainer r.node, r.found, r.st, r.modified, r.sig⟩
  | .jsxElement attrs children =>
    let self := Ast.jsxElement attrs children
    let ra := transformList ctx (self :: anc) st attrs
    let rc := transformList ctx (self :: anc) ra.st children
    ⟨.jsxElement ra.nodes rc.nodes, ra.found ++ rc.found, rc.st,
      ra.modified || rc.modified, sigOr ra.sig rc.sig⟩
  | .importDecl s =>
    let self := Ast.importDecl s
    let r := transformNode ctx (self :: anc) st s
    ⟨.importDecl r.node, r.found, r.st, r.modified, r.sig⟩
  | .exportNamed d =>
    let self := Ast.exportNamed d
    let r := transformNode ctx (self :: anc) st d
    ⟨.exportNamed r.node, r.found, r.st, r.modified, r.sig⟩
  | .switchCase t b =>
    let self := Ast.switchCase t b
    let rt := transformNode ctx (self :: anc) st t
    let rb := transformList ctx (self :: anc) rt.st b
    ⟨.switchCase rt.node rb.nodes, rt.found ++ rb.found, rb.st,
      rt.modified || rb.modified, sigOr rt.sig rb.sig⟩
  | .throwStmt a =>
    let self := Ast.throwStmt a
    let r := transformNode ctx (self :: anc) st a
    ⟨.throwStmt r.node, r.found, r.st, r.modified, r.sig⟩
  | .returnStmt a =>
    let self := Ast.returnStmt a
    let r := transformNode ctx (self :: anc) st a
    ⟨.returnStmt r.node, r.found, r.st, r.modified, r.sig⟩
  | .varDeclarator i e =>
    let self := Ast.varDeclarator i e
    let ri := transformNode ctx (self :: anc) st i
    let re := transformNode ctx (self :: anc) ri.st e
    ⟨.varDeclarator ri.node re.node, ri.found ++ re.found, re.st,
      ri.modified || re.modified, sigOr ri.sig re.sig⟩
  | .varDecl ds =>
    let self := Ast.varDecl ds
    let r := transformList ctx (self :: anc) st ds
    ⟨.varDecl r.nodes, r.found, r.st, r.modified, r.sig⟩
  | .exprStmt e =>
    let self := Ast.exprStmt e
    let r := transformNode ctx (self :: anc) st e
    ⟨.exprStmt r.node, r.found, r.st, r.modified, r.sig⟩
  | .program b =>
    let self := Ast.program b
    let r := transformList ctx (self :: anc) st b
    ⟨.program r.nodes, r.found, r.st, r.modified, r.sig⟩
  | .tsLiteralType l =>
    let self := Ast.tsLiteralType l
    let r := transformNode ctx (self :: anc) st l
    ⟨.tsLiteralType r.node, r.found, r.st, r.modified, r.sig⟩
  | .tsEnumMember i =>
    let self := Ast.tsEnumMember i
    let r := transformNode ctx (self :: anc) st i
    ⟨.tsEnumMember r.node, r.found, r.st, r.modified, r.sig⟩

/-- Visit a list of sibling nodes left to right, threading the state. -/
def transformList (ctx : Ctx) (anc : List Ast) (st : St) : List Ast → TOutL
  | [] => ⟨[], [], st, false, none⟩
  | a :: rest =>
    let r := transformNode ctx anc st a
    let rs := transformList ctx anc r.st rest
    ⟨r.node :: rs.nodes, r.found ++ rs.found, rs.st,
      r.modified || rs.modified, sigOr r.sig rs.sig⟩

end

/-! ## The extraction run (`extract`)

The run processes the files in discovery order with one shared registry and
draft.  File writes are modelled as the list of (path, rewritten tree) pairs
the run would persist; the translation-file write is the updated category
object of the locale JSON.  The model assumes the locale file exists and
parses (the source silently skips the corresponding step otherwise). -/

/-- The result of processing one file. -/
structure FileResult where
  name : String
  tree : Ast
  modified : Bool

/-- Embeds `processFile(filePath, root, options)`: run the visitors over the
file's tree with the shared state. -/
def processFileAst (mode : Mode) (autoGetters : Bool) (category file : String)
    (ast : Ast) (st : St) : TOut :=
  transformNode ⟨file, mode, autoGetters, category⟩ [] st ast

/-- The per-file loop of the run: thread the shared registry/draft through
the files in order, collecting report records and per-file results. -/
def runFiles (mode : Mode) (autoGetters : Bool) (category : String) :
    List (String × Ast) → St → List FoundString × List FileResult × St
  | [], st => ([], [], st)
  | (name, ast) :: rest, st =>
    let r := processFileAst mode autoGetters category name ast st
    let rs := runFiles mode autoGetters category rest r.st
    (r.found ++ rs.1, ⟨name, r.node, r.modified⟩ :: rs.2.1, rs.2.2)

/-- Seeding of the shared state from the keys already present in the locale
file under the configured category:
`usedKeys.add(category.key); translations[category.key] = value`. -/
def seedSt (category : String) (existingCat : List (String × String)) : St :=
  existingCat.foldl
    (fun st p =>
      ⟨addKey st.used (category ++ "." ++ p.1),
        setTr st.tr (category ++ "." ++ p.1) p.2⟩)
    ⟨[], []⟩

/-- Splitting a character list on a separator character (JS `split(sep)`,
empty pieces kept). -/
def splitCharAux (sep : Char) : List Char → List Char → List (List Char)
  | [], acc => [acc.reverse]
  | c :: rest, acc =>
    if c = sep then acc.reverse :: splitCharAux sep rest []
    else splitCharAux sep rest (c :: acc)

/-- Embeds `key.split('.')`. -/
def splitDot (s : String) : List String :=
  (splitCharAux '.' s.data []).map String.mk

/-- The merge of the translation draft into the locale file's category
object: every draft key whose first dot-segment is the category stores its
value under the remaining segments
(`existing[category][shortKey] = value`). -/
def mergeLocale (category : String) (existingCat : List (String × String))
    (tr : List (String × String)) : List (String × String) :=
  tr.foldl
    (fun acc p =>
      match splitDot p.1 with
      | [] => acc
      | first :: rest =>
        if first = category then setAssoc acc (joinStrs "." rest) p.2 else acc)
    existingCat

/-- The options of one extraction run. -/
structure RunOptions where
  mode : Mode
  dryRun : Bool
  autoGetters : Bool
  category : String

/-- The observable outcome of one run: the report, the modified-file list,
the source-file writes, the locale-file write (the updated category object),
and the final draft. -/
structure RunResult where
  found : List FoundString
  modifiedFiles : List String
  fileWrites : List (String × Ast)
  localeWrite : Option (List (String × String))
  translations : List (String × String)

/-- Embeds the `extract` run in report/extract mode (validate mode returns
an empty result before any file is processed).  A source file is written
exactly when it was modified in extract mode outside dry-run; the locale
file is written in extract mode outside dry-run. -/
def runExtract (opts : RunOptions) (files : List (String × Ast))
    (existingCat : List (String × String)) : RunResult :=
  if opts.mode = .validate then ⟨[], [], [], none, []⟩
  else
    let st0 := seedSt opts.category existingCat
    let r := runFiles opts.mode opts.autoGetters opts.category files st0
    let modified := r.2.1.filter (·.modified)
    let fileWrites :=
      if opts.mode = .extract ∧ ¬opts.dryRun then
        modified.map fun f => (f.name, f.tree)
      else []
    let localeWrite :=
      if opts.mode = .extract ∧ ¬opts.dryRun then
        some (mergeLocale opts.category existingCat r.2.2.tr)
      else none
    ⟨r.1, modified.map (·.name), fileWrites, localeWrite, r.2.2.tr⟩

/-! ## Verification-side definitions -/

/-- The value of a big-endian digit string (proof device for the decimal
rendering). -/
def digitsVal (l : List Char) : Nat :=
  l.foldl (fun a c => 10 * a + (c.toNat - 48)) 0

/-- Characters allowed in the base part of a generated key: ASCII lowercase
letters, digits, underscore. -/
def isBaseChar (c : Char) : Bool :=
  (97 ≤ c.toNat && c.toNat ≤ 122) || (48 ≤ c.toNat && c.toNat ≤ 57) || c.toNat == 95

/-- The character classes cleaned text can contain after lowercasing:
lowercase Cyrillic, lowercase ASCII letters, digits, whitespace. -/
def isCleanLow (c : Char) : Bool :=
  let n := c.toNat
  (0x430 ≤ n && n ≤ 0x44f) || n == 0x451 || (97 ≤ n && n ≤ 122) ||
  (48 ≤ n && n ≤ 57) || jsWs c

/-- Spec-side placeholder name of the i-th template expression: the bare
identifier's own name, else the positional synthetic name. -/
def specPlaceholder (i : Nat) : Ast → String
  | .ident n => n
  | _ => "arg" ++ decimalStr i

/-- Spec-side normalized template text: the literal chunks concatenated with
a marker at each expression boundary, in source order (stated from the
specification, to be compared against the visitor's computation). -/
def specNormalize : List String → List Ast → Nat → String
  | q :: qrest, e :: erest, i =>
    q ++ "\x7b\x7b" ++ specPlaceholder i e ++ "\x7d\x7d" ++ specNormalize qrest erest (i + 1)
  | q :: _, [], _ => q
  | [], _, _ => ""

/-! # Proofs

## Decimal rendering -/

lemma toNat_ofNat_valid (n : Nat) (h : n.isValidChar) : (Char.ofNat n).toNat = n := by
  unfold Char.ofNat
  rw [dif_pos h]
  rfl

lemma toNat_digitChar (n : Nat) (h : n < 10) : (digitChar n).toNat = 48 + n := by
  apply toNat_ofNat_valid
  exact Or.inl (by omega)

lemma digitsVal_append (l : List Char) (d : Char) :
    digitsVal (l ++ [d]) = 10 * digitsVal l + (d.toNat - 48) := by
  simp [digitsVal, List.foldl_append]

lemma natDigitsAux_val : ∀ fuel n, n ≤ fuel → digitsVal (natDigitsAux fuel n) = n := by
  intro fuel
  induction fuel with
  | zero =>
    intro n hn
    interval_cases n
    simp [natDigitsAux, digitsVal]
  | succ f ih =>
    intro n hn
    match n with
    | 0 => simp [natDigitsAux, digitsVal]
    | m + 1 =>
      have hdiv : (m + 1) / 10 ≤ f := by
        have := Nat.div_lt_self (Nat.succ_pos m) (by omega : 1 < 10)
        omega
      have hmod : (m + 1) % 10 < 10 := Nat.mod_lt _ (by omega)
      rw [natDigitsAux, digitsVal_append, ih _ hdiv, toNat_digitChar _ hmod]
      omega

lemma digitsVal_decimalStr (n : Nat) : digitsVal (decimalStr n).data = n := by
  by_cases h : n = 0
  · subst h; decide
  · rw [decimalStr, if_neg h]
    exact natDigitsAux_val n n le_rfl

lemma decimalStr_inj {n m : Nat} (h : decimalStr n = decimalStr m) : n = m := by
  have h₁ := congrArg (fun s => digitsVal s.data) h
  simpa [digitsVal_decimalStr] using h₁

lemma decimalStr_ne_nil (n : Nat) : (decimalStr n).data ≠ [] := by
  match n with
  | 0 => decide
  | m + 1 =>
    rw [decimalStr, if_neg (by omega)]
    show natDigitsAux (m + 1) (m + 1) ≠ []
    rw [natDigitsAux]
    simp

/-! ## Candidate keys are pairwise distinct -/

lemma candKey_data_zero (cat base : String) :
    (candKey cat base 0).data = cat.data ++ ".".data ++ base.data := by
  simp [candKey, String.data_append]

lemma candKey_data_succ (cat base : String) (n : Nat) :
    (candKey cat base (n + 1)).data =
      cat.data ++ ".".data ++ base.data ++ "_".data ++ (decimalStr (n + 1)).data := by
  simp [candKey, String.data_append]

lemma candKey_inj (cat base : String) : ∀ {n m : Nat},
    candKey cat base n = candKey cat base m → n = m := by
  intro n m h
  have hd := congrArg String.data h
  match n, m with
  | 0, 0 => rfl
  | 0, m + 1 =>
    exfalso
    rw [candKey_data_zero, candKey_data_succ] at hd
    have hlen := congrArg List.length hd
    simp only [List.length_append] at hlen
    have hlz : (decimalStr (m + 1)).data.length ≠ 0 := fun hc =>
      decimalStr_ne_nil (m + 1) (List.eq_nil_of_length_eq_zero hc)
    have hu : "_".data.length = 1 := rfl
    omega
  | n + 1, 0 =>
    exfalso
    rw [candKey_data_zero, candKey_data_succ] at hd
    have hlen := congrArg List.length hd
    simp only [List.length_append] at hlen
    have hlz : (decimalStr (n + 1)).data.length ≠ 0 := fun hc =>
      decimalStr_ne_nil (n + 1) (List.eq_nil_of_length_eq_zero hc)
    have hu : "_".data.length = 1 := rfl
    omega
  | n + 1, m + 1 =>
    rw [candKey_data_succ, candKey_data_succ] at hd
    repeat rw [List.append_assoc] at hd
    have h₁ := List.append_cancel_left hd
    have h₂ := List.append_cancel_left h₁
    have h₃ := List.append_cancel_left h₂
    have h₄ := List.append_cancel_left h₃
    have h₅ := decimalStr_inj (String.ext h₄)
    omega

/-! ## The registry is finite, so some candidate is free -/

lemma memKey_iff (used : List String) (k : String) :
    memKey used k = true ↔ k ∈ used := by
  simp [memKey, List.elem_iff]

lemma exists_free_cand (cat base : String) (used : List String) :
    ∃ m, m ≤ used.length ∧ memKey used (candKey cat base m) = false := by
  by_contra hc
  push_neg at hc
  have hmem : ∀ m, m ≤ used.length → candKey cat base m ∈ used := by
    intro m hm
    have hne := hc m hm
    exact (memKey_iff used _).mp (Bool.ne_false_iff.mp hne)
  have hcard : (Finset.range (used.length + 1)).card ≤ used.toFinset.card := by
    apply Finset.card_le_card_of_injOn (candKey cat base)
    · intro a ha
      rw [List.mem_toFinset]
      exact hmem a (Nat.lt_succ_iff.mp (Finset.mem_range.mp ha))
    · intro a _ b _ hab
      exact candKey_inj cat base hab
  rw [Finset.card_range] at hcard
  have hfin := used.toFinset_card_le
  omega

/-! ## The suffixing loop: first stop, termination, result -/

lemma resolveLoop_first_stop (used : List String) (tr : List (String × String))
    (text cat base : String) :
    ∀ (fuel n j : Nat), j < fuel →
      loopCond used tr text (candKey cat base (n + j)) = false →
      (∀ i, i < j → loopCond used tr text (candKey cat base (n + i)) = true) →
      resolveLoop used tr text cat base fuel n = candKey cat base (n + j) := by
  intro fuel
  induction fuel with
  | zero => intro n j hj; omega
  | succ f ih =>
    intro n j hj hstop hmin
    match j with
    | 0 =>
      rw [resolveLoop]
      simp only [Nat.add_zero] at hstop
      rw [hstop]
      simp
    | i + 1 =>
      have h0 : loopCond used tr text (candKey cat base n) = true := by
        have h00 := hmin 0 (by omega)
        simpa using h00
      rw [resolveLoop, h0]
      simp only [if_true]
      have hrec := ih (n + 1) i (by omega)
        (by rw [show n + 1 + i = n + (i + 1) by omega]; exact hstop)
        (by
          intro i₁ hi₁
          rw [show n + 1 + i₁ = n + (i₁ + 1) by omega]
          exact hmin (i₁ + 1) (by omega))
      rw [hrec, show n + 1 + i = n + (i + 1) by omega]

lemma exists_least_stop (used : List String) (tr : List (String × String))
    (text cat base : String) :
    ∃ j, j ≤ used.length ∧
      loopCond used tr text (candKey cat base j) = false ∧
      ∀ i, i < j → loopCond used tr text (candKey cat base i) = true := by
  obtain ⟨m, hm, hfree⟩ := exists_free_cand cat base used
  have hP : loopCond used tr text (candKey cat base m) = false := by
    rw [loopCond, hfree]
    rfl
  have hex : ∃ j, loopCond used tr text (candKey cat base j) = false := ⟨m, hP⟩
  refine ⟨Nat.find hex, ?_, Nat.find_spec hex, ?_⟩
  · exact le_trans (Nat.find_min' hex hP) hm
  · intro i hi
    have hne := Nat.find_min hex hi
    exact Bool.ne_false_iff.mp hne

/-- The characterization of a `generateKey` run: the result is the first
candidate on which the loop guard fails, and that candidate is reached
within the registry-size bound. -/
lemma generateKey_spec (text cat : String) (used : List String)
    (tr : List (String × String)) :
    ∃ j, j ≤ used.length ∧
      generateKey text cat used tr = candKey cat (mkBaseKey text) j ∧
      loopCond used tr text (candKey cat (mkBaseKey text) j) = false ∧
      ∀ i, i < j → loopCond used tr text (candKey cat (mkBaseKey text) i) = true := by
  obtain ⟨j, hj, hstop, hmin⟩ := exists_least_stop used tr text cat (mkBaseKey text)
  refine ⟨j, hj, ?_, hstop, hmin⟩
  rw [generateKey]
  have hrl := resolveLoop_first_stop used tr text cat (mkBaseKey text)
    (used.length + 1) 0 j (by omega) (by simpa using hstop)
    (by intro i hi; simpa using hmin i hi)
  simpa using hrl

/-- The loop exits with its guard false: the returned key is either fresh in
the registry or already bound to this very text. -/
lemma generateKey_stop (text cat : String) (used : List String)
    (tr : List (String × String)) :
    loopCond used tr text (generateKey text cat used tr) = false := by
  obtain ⟨j, _, hkey, hstop, _⟩ := generateKey_spec text cat used tr
  rw [hkey]
  exact hstop

/-! ## Registry and draft updates -/

lemma lookupTr_setAssoc_self (tr : List (String × String)) (k v : String) :
    lookupTr (setAssoc tr k v) k = some v := by
  induction tr with
  | nil => simp [setAssoc, lookupTr]
  | cons p rest ih =>
    by_cases h : p.1 = k
    · simp [setAssoc, h, lookupTr]
    · simp [setAssoc, h, lookupTr, ih]

lemma lookupTr_setAssoc_ne (tr : List (String × String)) (k v k₂ : String)
    (h : k₂ ≠ k) : lookupTr (setAssoc tr k v) k₂ = lookupTr tr k₂ := by
  induction tr with
  | nil => simp [setAssoc, lookupTr, Ne.symm h]
  | cons p rest ih =>
    obtain ⟨k₁, v₁⟩ := p
    by_cases h₁ : k₁ = k
    · subst h₁
      simp [setAssoc, lookupTr, Ne.symm h]
    · simp [setAssoc, h₁, lookupTr, ih]

lemma memKey_addKey_self (used : List String) (k : String) :
    memKey (addKey used k) k = true := by
  rw [memKey_iff]
  by_cases h : memKey used k = true
  · rw [addKey, if_pos h]
    exact (memKey_iff used k).mp h
  · rw [addKey, if_neg h]
    simp

lemma memKey_addKey_mono (used : List String) (k k₂ : String)
    (h : memKey used k₂ = true) : memKey (addKey used k) k₂ = true := by
  rw [memKey_iff] at h ⊢
  by_cases h₁ : memKey used k = true
  · rw [addKey, if_pos h₁]; exact h
  · rw [addKey, if_neg h₁]
    exact List.mem_append_left _ h

lemma addKey_length (used : List String) (k : String) :
    used.length ≤ (addKey used k).length := by
  by_cases h : memKey used k = true
  · rw [addKey, if_pos h]
  · rw [addKey, if_neg h]
    simp

/-- Packaging of `resolveLoop_first_stop` at the top of the loop. -/
lemma generateKey_of_first_stop (text cat : String) (used : List String)
    (tr : List (String × String)) (j : Nat)
    (hjle : j ≤ used.length)
    (hstop : loopCond used tr text (candKey cat (mkBaseKey text) j) = false)
    (hmin : ∀ i, i < j → loopCond used tr text (candKey cat (mkBaseKey text) i) = true) :
    generateKey text cat used tr = candKey cat (mkBaseKey text) j := by
  rw [generateKey]
  have hrl := resolveLoop_first_stop used tr text cat (mkBaseKey text)
    (used.length + 1) 0 j (by omega) (by simpa using hstop)
    (by intro i hi; simpa using hmin i hi)
  simpa using hrl

/-- Idempotence of key generation once the minted key is recorded: a second
call with the same `(text, category)`, the registry extended by the first
call's own `usedKeys.add`, and the draft recording the minted key's text (as
the extract-mode caller does with `translations[key] = value`) returns the
first call's key again — the equal-text check stops the loop at the same
candidate. -/
lemma generateKey_idem_recorded (text cat : String) (used : List String)
    (tr : List (String × String)) :
    generateKey text cat (addKey used (generateKey text cat used tr))
      (setTr tr (generateKey text cat used tr) text) =
      generateKey text cat used tr := by
  obtain ⟨j, hj, hkey, hstop, hmin⟩ := generateKey_spec text cat used tr
  have hstop₂ : loopCond (addKey used (generateKey text cat used tr))
      (setTr tr (generateKey text cat used tr) text) text
      (candKey cat (mkBaseKey text) j) = false := by
    rw [← hkey, loopCond]
    rw [memKey_addKey_self used (generateKey text cat used tr)]
    rw [setTr, lookupTr_setAssoc_self tr (generateKey text cat used tr) text]
    simp
  have hmin₂ : ∀ i, i < j →
      loopCond (addKey used (generateKey text cat used tr))
        (setTr tr (generateKey text cat used tr) text) text
        (candKey cat (mkBaseKey text) i) = true := by
    intro i hi
    have h₁ := hmin i hi
    rw [loopCond, Bool.and_eq_true] at h₁
    obtain ⟨hmem, hlk⟩ := h₁
    have hne : candKey cat (mkBaseKey text) i ≠ generateKey text cat used tr := by
      rw [hkey]
      intro hc
      exact absurd (candKey_inj cat (mkBaseKey text) hc) (by omega)
    rw [loopCond, memKey_addKey_mono used (generateKey text cat used tr) _ hmem]
    rw [setTr, lookupTr_setAssoc_ne tr (generateKey text cat used tr) text _ hne, hlk]
    simp
  have hfin := generateKey_of_first_stop text cat
    (addKey used (generateKey text cat used tr))
    (setTr tr (generateKey text cat used tr) text) j
    (le_trans hj (addKey_length used (generateKey text cat used tr)))
    hstop₂ hmin₂
  rw [hfin, ← hkey]

/-- No cross-text collision: a key already registered and bound in the draft
to one text is never returned for a different text. -/
lemma generateKey_no_collision (cat t₂ : String) (used : List String)
    (tr : List (String × String)) (k t₁ : String)
    (hmem : memKey used k = true) (hbound : lookupTr tr k = some t₁)
    (hne : t₁ ≠ t₂) :
    generateKey t₂ cat used tr ≠ k := by
  intro hc
  have hstop := generateKey_stop t₂ cat used tr
  rw [hc, loopCond, hmem, hbound] at hstop
  have : (some t₁ == some t₂) = false := by
    simp [hne]
  rw [this] at hstop
  simp at hstop

/-! ## Character classes of generated keys -/



lemma jsLower_cleanLow (c : Char) (h : isCleanChar c = true) : isCleanLow (jsLower c) = true := by
  rw [isCleanChar] at h
  simp only [Bool.or_eq_true, Bool.and_eq_true, decide_eq_true_eq, beq_iff_eq, jsWs] at h
  rw [jsLower]
  split
  · next h₁ =>
    simp only [Bool.and_eq_true, decide_eq_true_eq] at h₁
    have hv : (c.toNat + 32).isValidChar := Or.inl (by omega)
    simp only [isCleanLow, jsWs, toNat_ofNat_valid _ hv, Bool.or_eq_true, Bool.and_eq_true,
      decide_eq_true_eq, beq_iff_eq]
    omega
  · next h₂ =>
    split
    · next h₁ =>
      simp only [Bool.and_eq_true, decide_eq_true_eq] at h₁
      have hv : (c.toNat + 32).isValidChar := Or.inl (by omega)
      simp only [isCleanLow, jsWs, toNat_ofNat_valid _ hv, Bool.or_eq_true, Bool.and_eq_true,
        decide_eq_true_eq, beq_iff_eq]
      omega
    · next h₁ =>
      split
      · next h₃ =>
        simp only [isCleanLow, jsWs, Bool.or_eq_true, Bool.and_eq_true,
          decide_eq_true_eq, beq_iff_eq]
        have : (Char.ofNat 0x451).toNat = 0x451 := by decide
        omega
      · next h₃ =>
        simp only [Bool.and_eq_true, decide_eq_true_eq, not_and] at h₂ h₁
        simp only [beq_iff_eq] at h₃
        simp only [isCleanLow, jsWs, Bool.or_eq_true, Bool.and_eq_true,
          decide_eq_true_eq, beq_iff_eq]
        omega

lemma jsLower_id_of_cleanLow (c : Char) (h : isCleanLow c = true) : jsLower c = c := by
  rw [isCleanLow] at h
  simp only [Bool.or_eq_true, Bool.and_eq_true, decide_eq_true_eq, beq_iff_eq, jsWs] at h
  rw [jsLower]
  split
  · next h₁ =>
    simp only [Bool.and_eq_true, decide_eq_true_eq] at h₁
    omega
  · split
    · next h₁ =>
      simp only [Bool.and_eq_true, decide_eq_true_eq] at h₁
      omega
    · split
      · next h₁ =>
        simp only [beq_iff_eq] at h₁
        omega
      · rfl


lemma translitChar_good (c : Char) (h : isCleanLow c = true) :
    ∀ d ∈ translitChar c, (isBaseChar d || jsWs d) = true := by
  intro d hd
  rw [translitChar] at hd
  split at hd
  all_goals try (fin_cases hd <;> decide)
  rw [isCleanLow] at h
  simp only [Bool.or_eq_true, Bool.and_eq_true, decide_eq_true_eq, beq_iff_eq, jsWs] at h
  rw [List.mem_singleton] at hd
  subst hd
  rename_i qx q1072 q1073 q1074 q1075 q1076 q1077 q1105 q1078 q1079 q1080 q1081 q1082 q1083 q1084 q1085 q1086 q1087 q1088 q1089 q1090 q1091 q1092 q1093 q1094 q1095 q1096 q1097 q1098 q1099 q1100 q1101 q1102 q1103
  have hq1072 : d.toNat ≠ 1072 := q1072
  have hq1073 : d.toNat ≠ 1073 := q1073
  have hq1074 : d.toNat ≠ 1074 := q1074
  have hq1075 : d.toNat ≠ 1075 := q1075
  have hq1076 : d.toNat ≠ 1076 := q1076
  have hq1077 : d.toNat ≠ 1077 := q1077
  have hq1105 : d.toNat ≠ 1105 := q1105
  have hq1078 : d.toNat ≠ 1078 := q1078
  have hq1079 : d.toNat ≠ 1079 := q1079
  have hq1080 : d.toNat ≠ 1080 := q1080
  have hq1081 : d.toNat ≠ 1081 := q1081
  have hq1082 : d.toNat ≠ 1082 := q1082
  have hq1083 : d.toNat ≠ 1083 := q1083
  have hq1084 : d.toNat ≠ 1084 := q1084
  have hq1085 : d.toNat ≠ 1085 := q1085
  have hq1086 : d.toNat ≠ 1086 := q1086
  have hq1087 : d.toNat ≠ 1087 := q1087
  have hq1088 : d.toNat ≠ 1088 := q1088
  have hq1089 : d.toNat ≠ 1089 := q1089
  have hq1090 : d.toNat ≠ 1090 := q1090
  have hq1091 : d.toNat ≠ 1091 := q1091
  have hq1092 : d.toNat ≠ 1092 := q1092
  have hq1093 : d.toNat ≠ 1093 := q1093
  have hq1094 : d.toNat ≠ 1094 := q1094
  have hq1095 : d.toNat ≠ 1095 := q1095
  have hq1096 : d.toNat ≠ 1096 := q1096
  have hq1097 : d.toNat ≠ 1097 := q1097
  have hq1098 : d.toNat ≠ 1098 := q1098
  have hq1099 : d.toNat ≠ 1099 := q1099
  have hq1100 : d.toNat ≠ 1100 := q1100
  have hq1101 : d.toNat ≠ 1101 := q1101
  have hq1102 : d.toNat ≠ 1102 := q1102
  have hq1103 : d.toNat ≠ 1103 := q1103
  simp only [isBaseChar, jsWs, Bool.or_eq_true, Bool.and_eq_true, decide_eq_true_eq, beq_iff_eq]
  omega


lemma mem_jsTrim {l : List Char} {c : Char} (h : c ∈ jsTrim l) : c ∈ l := by
  rw [jsTrim] at h
  rw [List.mem_reverse] at h
  have h₁ := (List.dropWhile_suffix jsWs).subset h
  rw [List.mem_reverse] at h₁
  exact (List.dropWhile_suffix jsWs).subset h₁

lemma mem_cleanText {text : String} {c : Char} (h : c ∈ cleanText text) :
    isCleanLow c = true := by
  rw [cleanText] at h
  obtain ⟨c₀, hc₀, rfl⟩ := List.mem_map.mp h
  have h₁ := mem_jsTrim hc₀
  have h₂ := (List.mem_filter.mp h₁).2
  exact jsLower_cleanLow c₀ h₂

lemma mem_transliterateL {l : List Char} {d : Char}
    (hl : ∀ c ∈ l, isCleanLow c = true) (h : d ∈ transliterateL l) :
    (isBaseChar d || jsWs d) = true := by
  rw [transliterateL] at h
  rw [List.mem_flatten] at h
  obtain ⟨w, hw, hdw⟩ := h
  rw [List.mem_map] at hw
  obtain ⟨c, hc, rfl⟩ := hw
  rw [List.mem_map] at hc
  obtain ⟨c₀, hc₀, rfl⟩ := hc
  have h₁ : isCleanLow (jsLower c₀) = true := by
    rw [jsLower_id_of_cleanLow c₀ (hl c₀ hc₀)]
    exact hl c₀ hc₀
  exact translitChar_good (jsLower c₀) h₁ d hdw

lemma splitWsAux_chars (Q : Char → Prop) :
    ∀ (l acc : List Char), (∀ x ∈ acc, Q x) →
      (∀ x ∈ l, jsWs x = false → Q x) →
      ∀ w ∈ splitWsAux l acc, ∀ c ∈ w, Q c := by
  intro l
  induction l with
  | nil =>
    intro acc hacc _ w hw c hc
    rw [splitWsAux, List.mem_singleton] at hw
    subst hw
    exact hacc c (List.mem_reverse.mp hc)
  | cons c₀ rest ih =>
    intro acc hacc hl w hw c hc
    rw [splitWsAux] at hw
    by_cases hws : jsWs c₀ = true
    · rw [if_pos hws] at hw
      rcases List.mem_cons.mp hw with hw | hw
      · subst hw
        exact hacc c (List.mem_reverse.mp hc)
      · exact ih [] (by simp) (fun x hx hxw => hl x (List.mem_cons_of_mem _ hx) hxw) w hw c hc
    · rw [if_neg hws] at hw
      refine ih (c₀ :: acc) ?_ (fun x hx hxw => hl x (List.mem_cons_of_mem _ hx) hxw) w hw c hc
      intro x hx
      rcases List.mem_cons.mp hx with hx | hx
      · subst hx
        exact hl x (List.mem_cons_self _ _) (Bool.not_eq_true _ ▸ Bool.of_not_eq_true hws)
      · exact hacc x hx

lemma splitWs_chars (Q : Char → Prop) (l : List Char)
    (hl : ∀ x ∈ l, jsWs x = false → Q x) :
    ∀ w ∈ splitWs l, ∀ c ∈ w, Q c := by
  intro w hw
  rw [splitWs, List.mem_filter] at hw
  exact splitWsAux_chars Q l [] (by simp) hl w hw.1

lemma mem_joinWith {sep : Char} {ws : List (List Char)} {c : Char}
    (h : c ∈ joinWith sep ws) : c = sep ∨ ∃ w ∈ ws, c ∈ w := by
  induction ws with
  | nil => rw [joinWith] at h; exact absurd h (List.not_mem_nil c)
  | cons w rest ih =>
    match rest with
    | [] =>
      rw [joinWith] at h
      exact Or.inr ⟨w, List.mem_cons_self _ _, h⟩
    | w₂ :: rest₂ =>
      have hj : joinWith sep (w :: w₂ :: rest₂) = w ++ sep :: joinWith sep (w₂ :: rest₂) := rfl
      rw [hj, List.mem_append] at h
      rcases h with h | h
      · exact Or.inr ⟨w, List.mem_cons_self _ _, h⟩
      · rcases List.mem_cons.mp h with h | h
        · exact Or.inl h
        · rcases ih h with h | ⟨w₃, hw₃, hc⟩
          · exact Or.inl h
          · exact Or.inr ⟨w₃, List.mem_cons_of_mem _ hw₃, hc⟩

lemma mkBaseKey_chars (text : String) :
    ∀ c ∈ (mkBaseKey text).data, isBaseChar c = true := by
  intro c hc
  rw [mkBaseKey] at hc
  by_cases hemp :
      ((joinWith '_' ((splitWs (transliterateL (cleanText text))).take 4)).take 50).isEmpty = true
  · rw [if_pos hemp] at hc
    fin_cases hc <;> decide
  · rw [if_neg hemp] at hc
    have hc₂ : c ∈ joinWith '_' ((splitWs (transliterateL (cleanText text))).take 4) :=
      List.take_subset 50 _ hc
    rcases mem_joinWith hc₂ with h | ⟨w, hw, hcw⟩
    · subst h; decide
    · have hw₂ : w ∈ splitWs (transliterateL (cleanText text)) :=
        List.take_subset 4 _ hw
      refine splitWs_chars (fun x => isBaseChar x = true) _ ?_ w hw₂ c hcw
      intro x hx hxw
      have := mem_transliterateL (fun c₀ hc₀ => mem_cleanText hc₀) hx
      rw [Bool.or_eq_true, hxw] at this
      simpa using this

lemma mkBaseKey_ne_nil (text : String) : (mkBaseKey text).data ≠ [] := by
  rw [mkBaseKey]
  by_cases hemp :
      ((joinWith '_' ((splitWs (transliterateL (cleanText text))).take 4)).take 50).isEmpty = true
  · rw [if_pos hemp]; decide
  · rw [if_neg hemp]
    show (String.mk _).data ≠ []
    simpa [List.isEmpty_iff] using hemp

lemma mkBaseKey_le_50 (text : String) : (mkBaseKey text).data.length ≤ 50 := by
  rw [mkBaseKey]
  by_cases hemp :
      ((joinWith '_' ((splitWs (transliterateL (cleanText text))).take 4)).take 50).isEmpty = true
  · rw [if_pos hemp]; decide
  · rw [if_neg hemp]
    show (String.mk _).data.length ≤ 50
    simp only [String.mk]
    exact List.length_take_le 50 _


lemma natDigitsAux_chars : ∀ fuel n, ∀ c ∈ natDigitsAux fuel n, isBaseChar c = true := by
  intro fuel
  induction fuel with
  | zero =>
    intro n c hc
    match n with
    | 0 => rw [natDigitsAux] at hc; exact absurd hc (List.not_mem_nil c)
    | m + 1 => rw [natDigitsAux] at hc; exact absurd hc (List.not_mem_nil c)
  | succ f ih =>
    intro n c hc
    match n with
    | 0 => rw [natDigitsAux] at hc; exact absurd hc (List.not_mem_nil c)
    | m + 1 =>
      rw [natDigitsAux, List.mem_append] at hc
      rcases hc with hc | hc
      · exact ih _ c hc
      · rw [List.mem_singleton] at hc
        subst hc
        have hlt : (m + 1) % 10 < 10 := Nat.mod_lt _ (by omega)
        rw [isBaseChar, toNat_digitChar _ hlt]
        simp only [Bool.or_eq_true, Bool.and_eq_true, decide_eq_true_eq, beq_iff_eq]
        omega

lemma decimalStr_chars (n : Nat) : ∀ c ∈ (decimalStr n).data, isBaseChar c = true := by
  intro c hc
  by_cases h : n = 0
  · subst h
    fin_cases hc
    decide
  · rw [decimalStr, if_neg h] at hc
    exact natDigitsAux_chars n n c hc

/-- The shape of every generated key: the category, a dot, then a non-empty
base of lowercase ASCII letters, digits and underscores — the truncated
transliterated base, possibly carrying one decimal counter suffix. -/
lemma generateKey_shape (text cat : String) (used : List String)
    (tr : List (String × String)) :
    ∃ b : String,
      generateKey text cat used tr = cat ++ "." ++ b ∧
      b.data ≠ [] ∧
      (∀ c ∈ b.data, isBaseChar c = true) ∧
      (b = mkBaseKey text ∨ ∃ m, b = mkBaseKey text ++ "_" ++ decimalStr (m + 1)) := by
  obtain ⟨j, _, hkey, _, _⟩ := generateKey_spec text cat used tr
  match j with
  | 0 =>
    refine ⟨mkBaseKey text, ?_, mkBaseKey_ne_nil text, mkBaseKey_chars text, Or.inl rfl⟩
    rw [hkey]
    rfl
  | m + 1 =>
    refine ⟨mkBaseKey text ++ "_" ++ decimalStr (m + 1), ?_, ?_, ?_, Or.inr ⟨m, rfl⟩⟩
    · rw [hkey]
      show cat ++ "." ++ mkBaseKey text ++ "_" ++ decimalStr (m + 1) = _
      rw [String.append_assoc (cat ++ ".") (mkBaseKey text) "_",
        String.append_assoc (cat ++ ".") (mkBaseKey text ++ "_") (decimalStr (m + 1))]
    · intro hc
      have hd : (mkBaseKey text ++ "_" ++ decimalStr (m + 1)).data =
          (mkBaseKey text).data ++ "_".data ++ (decimalStr (m + 1)).data := by
        simp [String.data_append]
      rw [hd] at hc
      simp at hc
    · intro c hc
      have hd : (mkBaseKey text ++ "_" ++ decimalStr (m + 1)).data =
          (mkBaseKey text).data ++ "_".data ++ (decimalStr (m + 1)).data := by
        simp [String.data_append]
      rw [hd] at hc
      simp only [List.mem_append] at hc
      rcases hc with (hc | hc) | hc
      · exact mkBaseKey_chars text c hc
      · have hc₂ : c = '_' := by simpa using hc
        subst hc₂
        decide
      · exact decimalStr_chars (m + 1) c hc

/-- The template-normalization loop computes exactly the spec-side
interleaving when the chunks outnumber the expressions by one (the grammar
invariant of template literals). -/
lemma buildTmplAux_spec : ∀ (qs : List String) (es : List Ast) (i : Nat)
    (text : String) (acc : List (String × Ast)),
    qs.length = es.length + 1 →
    (buildTmplAux qs es i text acc).1 = text ++ specNormalize qs es i := by
  intro qs
  induction qs with
  | nil => intro es i text acc h; simp at h
  | cons q qrest ih =>
    intro es i text acc h
    match es with
    | [] =>
      have hq : qrest = [] := by
        simpa using h
      subst hq
      rw [buildTmplAux, buildTmplAux, specNormalize]
    | e :: erest =>
      have hp : (buildTmplAux (q :: qrest) (e :: erest) i text acc).1 =
          (buildTmplAux qrest erest (i + 1)
            (text ++ q ++ "\x7b\x7b" ++ specPlaceholder i e ++ "\x7d\x7d")
            (setAssoc acc (specPlaceholder i e) e)).1 := by
        cases e <;> rfl
      rw [hp, ih erest (i + 1) _ _ (by simpa using h), specNormalize]
      simp [String.append_assoc]

/-- A string literal that is a direct or nested argument of a `t(...)` call
is skipped by the visitor: no report record, no rewrite, no state change. -/
lemma strLit_skip_in_tcall (ctx : Ctx) (anc : List Ast) (st : St) (v : String)
    (ln : Nat) (h : isInsideTCall anc = true) :
    transformNode ctx anc st (.strLit v ln) = ⟨.strLit v ln, [], st, false, none⟩ := by
  show visitStrLit ctx anc st v ln = _
  rw [visitStrLit, h]
  simp


/-- Dry-run purity at the run level: toggling only the dry-run flag leaves
the report unchanged (the visitors never read it), and dry-run suppresses
both the source-file writes and the locale-file write. -/
lemma runExtract_dryRun (mode : Mode) (autoGetters : Bool) (category : String)
    (files : List (String × Ast)) (existingCat : List (String × String)) :
    (runExtract ⟨mode, true, autoGetters, category⟩ files existingCat).found =
      (runExtract ⟨mode, false, autoGetters, category⟩ files existingCat).found ∧
    (runExtract ⟨mode, true, autoGetters, category⟩ files existingCat).fileWrites = [] ∧
    (runExtract ⟨mode, true, autoGetters, category⟩ files existingCat).localeWrite = none := by
  by_cases hv : mode = Mode.validate
  · subst hv
    exact ⟨rfl, rfl, rfl⟩
  · simp [runExtract, hv]



/-! # The claims -/

/-- C1, counterexample: the claim as stated is false on the code.  With the
registry and draft unchanged except for what the first call itself recorded —
`generateKey` records only `usedKeys.add(fullKey)`, it never writes the
draft — a second call with the identical `(text, category)` does not return
the same key: the loop guard `translations[fullKey] !== text` is true
because the draft has no entry for the key, so the suffixing loop runs and
returns the `_1`-suffixed key. -/
theorem claim_C1_counterexample :
    generateKey "Привет" "extracted" [] [] = "extracted.privet" ∧
    generateKey "Привет" "extracted"
        (addKey [] (generateKey "Привет" "extracted" [] [])) [] =
      "extracted.privet_1" ∧
    generateKey "Привет" "extracted"
        (addKey [] (generateKey "Привет" "extracted" [] [])) [] ≠
      generateKey "Привет" "extracted" [] [] := by
  refine ⟨rfl, rfl, ?_⟩
  decide

/-- C1, amended: key generation is idempotent once the minted key's text is
recorded in the draft.  For every text, category, registry and draft, if the
second call sees the registry extended by the first call's own
`usedKeys.add` and the draft mapping the minted key to the text (as the
extract-mode caller records with `translations[key] = value`), it returns
the same key — the equal-text check short-circuits the suffixing loop at the
first call's candidate. -/
theorem claim_C1_keygen_idempotence (text cat : String) (used : List String)
    (tr : List (String × String)) :
    generateKey text cat (addKey used (generateKey text cat used tr))
        (setTr tr (generateKey text cat used tr) text) =
      generateKey text cat used tr :=
  generateKey_idem_recorded text cat used tr

/-- C2: no cross-text collision.  Within one run, for distinct texts
`t₁ ≠ t₂` and the same category, with the caller recording the first minted
key's text in the draft, the generator never returns the first key for the
second text. -/
theorem claim_C2_no_cross_text_collision (cat t₁ t₂ : String)
    (used : List String) (tr : List (String × String)) (hne : t₁ ≠ t₂) :
    generateKey t₂ cat (addKey used (generateKey t₁ cat used tr))
        (setTr tr (generateKey t₁ cat used tr) t₁) ≠
      generateKey t₁ cat used tr := by
  apply generateKey_no_collision _ _ _ _ _ t₁ _ _ hne
  · exact memKey_addKey_self used (generateKey t₁ cat used tr)
  · exact lookupTr_setAssoc_self tr (generateKey t₁ cat used tr) t₁

theorem claim_C2_witness :
    ("Привет" : String) ≠ "Пока" ∧
    generateKey "Пока" "c" (addKey [] (generateKey "Привет" "c" [] []))
        (setTr [] (generateKey "Привет" "c" [] []) "Привет") ≠
      generateKey "Привет" "c" [] [] :=
  ⟨by decide, claim_C2_no_cross_text_collision "c" "Привет" "Пока" [] [] (by decide)⟩

/-- C3: end-to-end extraction scenario.  For the parsed file
`const x = "Привет мир";` with default config (category `extracted`,
auto-getters off) and an empty translation table, a non-dry-run extract run
reports exactly one found string with key `extracted.privet_mir`, writes the
file back with the literal replaced by `t("extracted.privet_mir")`, and
writes the locale file whose `extracted` category object gains
`privet_mir ↦ "Привет мир"`. -/
theorem claim_C3_end_to_end :
    (runExtract ⟨.extract, false, false, "extracted"⟩
        [("src/app.ts",
          .program [.varDecl [.varDeclarator (.ident "x") (.strLit "Привет мир" 1)]])]
        []).found =
      [⟨"src/app.ts", 1, "Привет мир", "extracted.privet_mir", .stringLiteral, none⟩] ∧
    (runExtract ⟨.extract, false, false, "extracted"⟩
        [("src/app.ts",
          .program [.varDecl [.varDeclarator (.ident "x") (.strLit "Привет мир" 1)]])]
        []).fileWrites =
      [("src/app.ts",
        .program [.varDecl [.varDeclarator (.ident "x")
          (.call (.ident "t") [.strLit "extracted.privet_mir" 0])]])] ∧
    (runExtract ⟨.extract, false, false, "extracted"⟩
        [("src/app.ts",
          .program [.varDecl [.varDeclarator (.ident "x") (.strLit "Привет мир" 1)]])]
        []).localeWrite =
      some [("privet_mir", "Привет мир")] :=
  ⟨rfl, rfl, rfl⟩

/-- C4: dry-run purity.  For every mode, auto-getter setting, category, file
list and pre-existing translation table, the dry run produces the identical
found-strings report to the otherwise-identical non-dry-run invocation, and
performs zero writes: no rewritten source file and no locale-file write. -/
theorem claim_C4_dry_run_purity (mode : Mode) (autoGetters : Bool)
    (category : String) (files : List (String × Ast))
    (existingCat : List (String × String)) :
    (runExtract ⟨mode, true, autoGetters, category⟩ files existingCat).found =
      (runExtract ⟨mode, false, autoGetters, category⟩ files existingCat).found ∧
    (runExtract ⟨mode, true, autoGetters, category⟩ files existingCat).fileWrites = [] ∧
    (runExtract ⟨mode, true, autoGetters, category⟩ files existingCat).localeWrite = none :=
  runExtract_dryRun mode autoGetters category files existingCat

/-- C5: lookup-call exclusion.  A string literal with some enclosing
`t(...)` call among its ancestors is never extracted: its visitor produces
no report record, no rewrite, no state change, in every mode.  In
particular a whole call `t("Привет")` passes through any mode unchanged
with an empty report. -/
theorem claim_C5_lookup_call_exclusion :
    (∀ (ctx : Ctx) (anc : List Ast) (st : St) (v : String) (ln : Nat),
      isInsideTCall anc = true →
      transformNode ctx anc st (.strLit v ln) = ⟨.strLit v ln, [], st, false, none⟩) ∧
    (∀ (mode : Mode) (autoGetters : Bool),
      transformNode ⟨"src/app.ts", mode, autoGetters, "extracted"⟩ [] ⟨[], []⟩
          (.call (.ident "t") [.strLit "Привет" 3]) =
        ⟨.call (.ident "t") [.strLit "Привет" 3], [], ⟨[], []⟩, false, none⟩) := by
  constructor
  · exact strLit_skip_in_tcall
  · intro mode autoGetters
    cases mode <;> rfl

theorem claim_C5_witness :
    isInsideTCall [Ast.call (.ident "t") [.strLit "Привет" 3]] = true ∧
    transformNode ⟨"src/app.ts", .extract, false, "extracted"⟩
        [Ast.call (.ident "t") [.strLit "Привет" 3]] ⟨[], []⟩ (.strLit "Привет" 3) =
      ⟨.strLit "Привет" 3, [], ⟨[], []⟩, false, none⟩ :=
  ⟨rfl, claim_C5_lookup_call_exclusion.1 ⟨"src/app.ts", .extract, false, "extracted"⟩
    [Ast.call (.ident "t") [.strLit "Привет" 3]] ⟨[], []⟩ "Привет" 3 rfl⟩

/-- C6: auto-getter gating.  With auto-getters on in extract mode:
(a) a matching literal that is the value of a non-computed object property
at module level is rewritten by replacing the whole property with a getter
returning the lookup call; (b) the same property inside a function body gets
a plain lookup-call value instead; (c) a computed property key falls back to
plain value replacement; (d) with no qualifying ancestor object property the
literal itself is replaced. -/
theorem claim_C6_auto_getter_gating :
    (transformNode ⟨"f.ts", .extract, true, "c"⟩ [] ⟨[], []⟩
        (.program [.varDecl [.varDeclarator (.ident "cfg")
          (.objExpr [.objProp (.ident "title") (.strLit "Привет" 1) false false])]])).node =
      .program [.varDecl [.varDeclarator (.ident "cfg")
        (.objExpr [.objMethodGet (.ident "title")
          [.returnStmt (.call (.ident "t") [.strLit "c.privet" 0])]])]] ∧
    (transformNode ⟨"f.ts", .extract, true, "c"⟩ [] ⟨[], []⟩
        (.program [.funcDecl "f" [.returnStmt
          (.objExpr [.objProp (.ident "title") (.strLit "Привет" 2) false false])]])).node =
      .program [.funcDecl "f" [.returnStmt
        (.objExpr [.objProp (.ident "title")
          (.call (.ident "t") [.strLit "c.privet" 0]) false false])]] ∧
    (transformNode ⟨"f.ts", .extract, true, "c"⟩ [] ⟨[], []⟩
        (.program [.varDecl [.varDeclarator (.ident "cfg")
          (.objExpr [.objProp (.ident "k") (.strLit "Привет" 1) true false])]])).node =
      .program [.varDecl [.varDeclarator (.ident "cfg")
        (.objExpr [.objProp (.ident "k")
          (.call (.ident "t") [.strLit "c.privet" 0]) true false])]] ∧
    (transformNode ⟨"f.ts", .extract, true, "c"⟩ [] ⟨[], []⟩
        (.program [.varDecl [.varDeclarator (.ident "x") (.strLit "Привет" 1)]])).node =
      .program [.varDecl [.varDeclarator (.ident "x")
        (.call (.ident "t") [.strLit "c.privet" 0])]] :=
  ⟨rfl, rfl, rfl, rfl⟩

/-- C7: interpolation extraction.  In general, for every template whose
chunk list outnumbers its expressions by one (the template-literal grammar
invariant), the visitor's normalized text is exactly the chunks interleaved
with one placeholder marker per expression boundary in source order, bare
identifiers contributing their own name and other expressions the positional
synthetic name.  In particular, the template
`` `Привет ${name}, у вас ${count} сообщений` `` normalizes to a text
containing exactly the two markers in source order, and the rewritten call's
second argument is an object with exactly those two shorthand properties. -/
theorem claim_C7_interpolation :
    (∀ (qs : List String) (es : List Ast), qs.length = es.length + 1 →
      (buildTmpl qs es).1 = specNormalize qs es 0) ∧
    (transformNode ⟨"f.ts", .extract, false, "c"⟩ [] ⟨[], []⟩
        (.tmplLit ["Привет ", ", у вас ", " сообщений"]
          [.ident "name", .ident "count"] 4)).node =
      .call (.ident "t")
        [.strLit "c.privet_name_u_vas" 0,
         .objExpr [.objProp (.ident "name") (.ident "name") false true,
                   .objProp (.ident "count") (.ident "count") false true]] ∧
    (transformNode ⟨"f.ts", .extract, false, "c"⟩ [] ⟨[], []⟩
        (.tmplLit ["Привет ", ", у вас ", " сообщений"]
          [.ident "name", .ident "count"] 4)).found =
      [⟨"f.ts", 4, "Привет \x7b\x7bname\x7d\x7d, у вас \x7b\x7bcount\x7d\x7d сообщений",
        "c.privet_name_u_vas", .templateLiteralWithExpressions, some ["name", "count"]⟩] := by
  refine ⟨?_, rfl, rfl⟩
  intro qs es h
  have hb := buildTmplAux_spec qs es 0 "" [] h
  rw [buildTmpl, hb]
  simp

theorem claim_C7_witness :
    (["Привет ", ", у вас ", " сообщений"] : List String).length =
      ([Ast.ident "name", Ast.ident "count"] : List Ast).length + 1 ∧
    (buildTmpl ["Привет ", ", у вас ", " сообщений"]
        [Ast.ident "name", Ast.ident "count"]).1 =
      specNormalize ["Привет ", ", у вас ", " сообщений"]
        [Ast.ident "name", Ast.ident "count"] 0 :=
  ⟨by decide, claim_C7_interpolation.1 ["Привет ", ", у вас ", " сообщений"]
    [Ast.ident "name", Ast.ident "count"] (by decide)⟩

/-- C8: termination of key suffixing.  For every text, category, finite
registry and draft: the step-indexed suffixing loop has already reached its
exit within `used.length + 1` guard evaluations — every larger fuel returns
the same key (the loop cannot run forever), and the key it returns makes
the loop guard false (the loop exits normally — there is no give-up or
error path). -/
theorem claim_C8_suffixing_terminates (text cat : String) (used : List String)
    (tr : List (String × String)) (fuel : Nat) (hfuel : used.length + 1 ≤ fuel) :
    resolveLoop used tr text cat (mkBaseKey text) fuel 0 =
      generateKey text cat used tr ∧
    loopCond used tr text (generateKey text cat used tr) = false := by
  obtain ⟨j, hj, hkey, hstop, hmin⟩ := generateKey_spec text cat used tr
  constructor
  · have hrl := resolveLoop_first_stop used tr text cat (mkBaseKey text)
      fuel 0 j (by omega) (by simpa using hstop) (by intro i hi; simpa using hmin i hi)
    rw [hkey]
    simpa using hrl
  · rw [hkey]
    exact hstop

theorem claim_C8_witness :
    (["x"] : List String).length + 1 ≤ 2 ∧
    (resolveLoop ["x"] [] "Привет" "c" (mkBaseKey "Привет") 2 0 =
        generateKey "Привет" "c" ["x"] [] ∧
      loopCond ["x"] [] "Привет" (generateKey "Привет" "c" ["x"] []) = false) :=
  ⟨by decide, claim_C8_suffixing_terminates "Привет" "c" ["x"] [] 2 (by decide)⟩

/-- C9: invalid-pattern fallback.  For every regex engine, string and
pattern, when compiling the pattern fails (an invalid regular expression),
`matchesSourcePattern` does not propagate the failure: it returns the
default-pattern match `hasRussian s` — the test of the Russian alphabet
range `[а-яёА-ЯЁ]`. -/
theorem claim_C9_invalid_pattern_fallback (E : RegexEngine) (s p : String)
    (h : E.compile p = none) :
    matchesSourcePattern E s p = hasRussian s := by
  rw [matchesSourcePattern, h]

theorem claim_C9_witness :
    (RegexEngine.mk Unit (fun _ => none) (fun _ _ => false)).compile "[" = none ∧
    matchesSourcePattern (RegexEngine.mk Unit (fun _ => none) (fun _ _ => false))
        "Привет" "[" = hasRussian "Привет" :=
  ⟨rfl, claim_C9_invalid_pattern_fallback
    (RegexEngine.mk Unit (fun _ => none) (fun _ _ => false)) "Привет" "[" rfl⟩

/-- C10: key shape invariant.  Every key `generateKey` returns is the
category, a dot, and a non-empty base consisting only of ASCII lowercase
letters, digits and underscores; the base is the truncated transliterated
base key — whose length is at most 50 — either alone or followed by one
underscore-separated decimal counter suffix. -/
theorem claim_C10_key_shape (text cat : String) (used : List String)
    (tr : List (String × String)) :
    ∃ b : String,
      generateKey text cat used tr = cat ++ "." ++ b ∧
      b.data ≠ [] ∧
      (∀ c ∈ b.data, isBaseChar c = true) ∧
      (b = mkBaseKey text ∨ ∃ m, b = mkBaseKey text ++ "_" ++ decimalStr (m + 1)) ∧
      (mkBaseKey text).data.length ≤ 50 := by
  obtain ⟨b, hkey, hne, hchars, hform⟩ := generateKey_shape text cat used tr
  exact ⟨b, hkey, hne, hchars, hform, mkBaseKey_le_50 text⟩


end I18n
